import Mathlib

/-!
Verification of the orchestration logic of two MNIST spiking-network
experiment scripts:

  * `experiments/mnist/logreg_locally_connected.py` (function `main`)
  * `scripts/mnist/diehl_and_cook_2015.py` (module-level script)

The scripts are shallowly embedded below.  Machine integers are modelled by
`Nat`/`Int` (Python integers are unbounded, so no wraparound is involved);
Python floats used only for accuracies and hyperparameters are modelled by
`Rat`; Python list slicing is modelled faithfully, including negative
indices and clamping.  External library calls (the SNN simulator, the
logistic-regression solver) are abstracted as plain data or as explicitly
marked spec-modelled semantics.
-/

namespace BindsnetExperiments

/-- Run configuration of `logreg_locally_connected.main` (its keyword
parameters, source lines 40-42).  Python floats are modelled as `Rat`;
`kernel_size` and `stride` are int tuples of length 1 or 2 modelled as
lists. -/
structure LCConfig where
  seed : Nat
  n_train : Nat
  n_test : Nat
  inhib : Rat
  kernel_size : List Nat
  stride : List Nat
  time : Nat
  n_filters : Nat
  crop : Nat
  lr : Rat
  lr_decay : Rat
  dt : Rat
  theta_plus : Rat
  theta_decay : Rat
  intensity : Rat
  norm : Rat
  progress_interval : Nat
  update_interval : Nat
  train : Bool
  deriving DecidableEq, Repr

/-- The default parameter values of `main` (source line 40-42). -/
def defaultLCConfig : LCConfig where
  seed := 0
  n_train := 60000
  n_test := 10000
  inhib := 250
  kernel_size := [16]
  stride := [2]
  time := 100
  n_filters := 25
  crop := 0
  lr := 1 / 100
  lr_decay := 99 / 100
  dt := 1
  theta_plus := 1 / 20
  theta_decay := 1 / 10000000
  intensity := 5
  norm := 1 / 5
  progress_interval := 10
  update_interval := 250
  train := true

/-- The assert on source line 44 of `logreg_locally_connected.py` (and the
identical assert on line 32 of `diehl_and_cook_2015.py`):
`n_train % update_interval == 0 and n_test % update_interval == 0`. -/
def divisibilityCheck (c : LCConfig) : Bool :=
  c.n_train % c.update_interval == 0 && c.n_test % c.update_interval == 0

/-- The kinds of work `main` performs after the assert, in source order:
network construction (lines 74-87), data loading (lines 98-107), and the
simulation loop (lines 157-239). -/
inductive WorkPhase where
  | networkConstruction
  | dataLoading
  | simulation
  deriving DecidableEq, Repr

/-- The initial section of `main` that decides claim C1: the assert on line 44 runs
first; only when it passes does any work phase happen.  The result is the
list of work phases performed, or the assert message.  (The bodies of the
phases are irrelevant to C1 and are elided; what matters is that the error
path performs none of them.) -/
def mainPrefix (c : LCConfig) : Except String (List WorkPhase) :=
  if divisibilityCheck c then
    Except.ok [WorkPhase.networkConstruction, WorkPhase.dataLoading, WorkPhase.simulation]
  else
    Except.error "No. examples must be divisible by update_interval"

/-- The `params` list of `main` (source lines 47-50), rendered as the
per-parameter strings that `str(x)` produces; the exact decimal rendering
of Python floats is abstracted by `Rat` `toString`, which preserves the
only property at stake: the rendering is a function of the value. -/
def paramStrings (c : LCConfig) : List String :=
  [toString c.seed, toString c.kernel_size, toString c.stride, toString c.n_filters,
   toString c.crop, toString c.lr, toString c.lr_decay, toString c.n_train,
   toString c.inhib, toString c.time, toString c.dt, toString c.theta_plus,
   toString c.theta_decay, toString c.intensity, toString c.norm,
   toString c.progress_interval, toString c.update_interval]

/-- The model identity string (source line 52): the stringified params
joined with underscores. -/
def model_name (c : LCConfig) : String :=
  String.intercalate "_" (paramStrings c)

/-- The network checkpoint file name: `model_name` followed by the `.pt`
suffix (source lines 82 and 189). -/
def checkpointFile (c : LCConfig) : String :=
  model_name c ++ ".pt"

/-- The classifier auxiliary-state file name: the word `auxiliary`, an
underscore, `model_name`, and the `.pt` suffix (source lines 122 and 190). -/
def auxiliaryFile (c : LCConfig) : String :=
  String.intercalate "_" ["auxiliary", model_name c] ++ ".pt"

/-- Python `max` over a list of floats, modelled on `Rat`; `max([])` raises
in Python, so the `[]` case is never reached on the source path (the curves
dict always holds at least one strategy). -/
def pyMax : List Rat → Rat
  | [] => 0
  | [x] => x
  | x :: y :: xs => max x (pyMax (y :: xs))

/-- The checkpoint decision of one interval evaluation (source lines 184-194 of
`logreg_locally_connected.py`, lines 140-153 of `diehl_and_cook_2015.py`):
given the current best-accuracy watermark and the latest accuracy of every
strategy (`[x[-1] for x in curves.values()]`), returns whether the
checkpoint is persisted and the new watermark
(`best_accuracy = max([x[-1] for x in curves.values()])` when persisted,
unchanged otherwise). -/
def checkpointStep (best : Rat) (lasts : List Rat) : Bool × Rat :=
  if lasts.any (fun x => decide (best < x)) then (true, pyMax lasts) else (false, best)

/-- The watermark after a sequence of interval evaluations, each supplying
the list of latest accuracies. -/
def watermarkAfter (best : Rat) : List (List Rat) → Rat
  | [] => best
  | l :: ls => watermarkAfter (checkpointStep best l).2 ls

/-- The per-example retry loop (source lines 209-215): after the initial
run, while the output layer produced fewer than 5 spikes and fewer than 3
retries have happened, double the image intensity and rerun.  `spikesOf s`
abstracts the total output-spike count of a run with the image scaled by
`s` relative to its original value (the initial run uses scale 1).
Returns the list of scale factors used by the retry runs, in order, and
the final retry count. -/
def retryLoop (spikesOf : Nat → Nat) (scale retries : Nat) : List Nat × Nat :=
  if h : spikesOf scale < 5 ∧ retries < 3 then
    let rest := retryLoop spikesOf (2 * scale) (retries + 1)
    (2 * scale :: rest.1, rest.2)
  else
    ([], retries)
termination_by 3 - retries
decreasing_by
  omega

/-- Resolution of one Python slice bound against a list of length `len`:
negative indices count from the end, and both directions clamp into
`[0, len]`. -/
def sliceBound (len : Nat) (i : Int) : Nat :=
  if i < 0 then (max ((len : Int) + i) 0).toNat else (min i (len : Int)).toNat

/-- Python list slicing `l[a:b]` with default step. -/
def pySlice {α : Type} (l : List α) (a b : Int) : List α :=
  let s := sliceBound l.length a
  let e := sliceBound l.length b
  (l.drop s).take (e - s)

/-- The interval label/record selection (source lines 162-168, repeated at
245-250): at an interval boundary `i`, if `i % len(labels) == 0` take
`labels[-update_interval:]`, else take
`labels[i % len(labels) - update_interval : i % len(labels)]`.  (The same
arithmetic selects `current_record` from `full_spike_record`.) -/
def currentLabels {α : Type} (labels : List α) (update_interval i : Nat) : List α :=
  if i % labels.length = 0 then
    pySlice labels (-(update_interval : Int)) labels.length
  else
    pySlice labels ((i % labels.length : Int) - update_interval) (i % labels.length)

/-- One write into the circular spike-record buffer:
`spike_record[i % update_interval] = <spikes of example i>` (source line
218; line 170 of `diehl_and_cook_2015.py`).  A slot records the index of
the example whose data it holds (the data itself is a framework tensor, so
the slot-to-example correspondence is the content of the claim). -/
def writeSlot (update_interval : Nat) (buf : Nat → Option Nat) (i : Nat) :
    Nat → Option Nat :=
  fun k => if k = i % update_interval then some i else buf k

/-- The buffer contents after the loop has processed examples
`0, 1, ..., n-1`, starting from the all-zero buffer allocated on source
line 110 (modelled as empty slots). -/
def bufferAfter (update_interval : Nat) : Nat → Nat → Option Nat
  | 0 => fun _ => none
  | n + 1 => writeSlot update_interval (bufferAfter update_interval n) n

/-- The accuracy entries appended during the main loop (source lines
162-174; lines 123-132 of `diehl_and_cook_2015.py`): one entry per index
`i < n_examples` with `i % update_interval == 0 and i > 0`; `acc i`
abstracts the accuracy value computed at boundary `i`. -/
def curveAfterLoop (update_interval n : Nat) (acc : Nat → Rat) : List Rat :=
  (List.range n).foldl
    (fun curve i =>
      if i % update_interval = 0 ∧ 0 < i then curve ++ [acc i] else curve)
    []

/-- The full accuracy curve: the in-loop entries plus the single entry the
post-loop final flush appends at `i = n_examples` (source lines 243-256;
lines 203-213 of `diehl_and_cook_2015.py`). -/
def curveFinal (update_interval n : Nat) (acc : Nat → Rat) : List Rat :=
  curveAfterLoop update_interval n acc ++ [acc n]

/-- The learning rules relevant to the primary plastic connection
the X-to-Y connection: the plastic rule the network is built with, and the `NoOp`
rule installed in test mode (source lines 83-85). -/
inductive UpdateRule where
  | plastic
  | noOp
  deriving DecidableEq, Repr

/-- The slice of simulator state claim C7 concerns: the weights of the
primary plastic connection, the adaptive threshold of the output layer,
its adaptation parameters, and the update rule of the connection. -/
@[ext]
structure NetworkState where
  w : List Rat
  theta : List Rat
  theta_plus : Rat
  theta_decay : Rat
  update_rule : UpdateRule
  deriving DecidableEq, Repr

/-- Test-mode provisioning (source lines 82-87): after loading the
checkpoint, set the update rule of the X-to-Y connection to `NoOp` and zero
`theta_plus` and `theta_decay` on layer `Y`. -/
def provisionTest (net : NetworkState) : NetworkState :=
  { net with
    update_rule := UpdateRule.noOp
    theta_plus := 0
    theta_decay := 0 }

/-- Modelled from the spec: the external simulator (bindsnet, out of scope
here) applies the update rule of the connection once per `network.run` — the
`NoOp` rule performs no weight update ("the learning rule [...] is
disabled (made a no-op)") while the plastic rule applies some
example-dependent delta — and adapts the threshold by the decay/increment
parameters (`theta` decays by factor `theta_decay` and grows by
`theta_plus` per output spike). -/
def runExample (delta : List Rat → List Rat) (spk : List Rat)
    (net : NetworkState) : NetworkState :=
  { net with
    w :=
      match net.update_rule with
      | UpdateRule.noOp => net.w
      | UpdateRule.plastic => delta net.w
    theta :=
      (net.theta.zip spk).map
        (fun p => p.1 - net.theta_decay * p.1 + net.theta_plus * p.2) }

/-- Driving the (provisioned) network over a sequence of examples, with
per-example weight deltas and output-spike vectors. -/
def runExamples (deltas : Nat → List Rat → List Rat) (spks : Nat → List Rat) :
    Nat → NetworkState → NetworkState
  | 0, net => net
  | m + 1, net => runExamples deltas spks m (runExample (deltas m) (spks m) net)

/-- A concrete one-weight, one-neuron network used by the C7 witness. -/
def demoNet : NetworkState :=
  NetworkState.mk [1/2] [0] 1 1 UpdateRule.plastic

/-- The MNIST splits the dataset loader offers. -/
inductive MNISTSplit where
  | trainSplit
  | testSplit
  deriving DecidableEq, Repr

/-- Data loading in `diehl_and_cook_2015.py` line 81:
`images, labels = MNIST(...).get_train()` — unconditional, with no branch
on the train/test flag. -/
def dcDataSplit (_train : Bool) : MNISTSplit :=
  MNISTSplit.trainSplit

/-- Example count in `diehl_and_cook_2015.py` lines 48-51: the example count is `n_train`
in train mode and `n_test` in test mode. -/
def dcNExamples (n_train n_test : Nat) (train : Bool) : Nat :=
  if train then n_train else n_test

/-- Reference cyclic extension of a label list: `cyc L n` has length `n`
and entry `L[i % len(L)]` at index `i` — the first `n` entries of `L`
repeated periodically. -/
def cyc (L : List Nat) (n : Nat) : List Nat :=
  (List.range n).map (fun i => L.getD (i % L.length) 0)

/-- The label-adjustment while-loop of source lines 318-323 with explicit
fuel standing for the unbounded `while`: while `len(labels) < n_examples`,
either top up with the head slice `labels[:n_examples - len(labels)]`
(when `2 * len(labels) > n_examples`) or concatenate `labels` with itself.
For a non-empty list every doubling iteration strictly grows the list, so
fuel `n + 1` is never exhausted; on an empty list the source loop does not
terminate. -/
def extendLoop : Nat → Nat → List Nat → List Nat
  | 0, _, labels => labels
  | fuel + 1, n, labels =>
      if labels.length < n then
        if n < 2 * labels.length then labels ++ labels.take (n - labels.length)
        else extendLoop fuel n (labels ++ labels)
      else labels

/-- The label adjustment performed before computing confusion matrices
(source lines 316-323): truncate to the first `n_examples` labels when the
vector is longer, else cyclically extend it to exactly `n_examples`
entries. -/
def adjustLabels (n : Nat) (labels : List Nat) : List Nat :=
  if n < labels.length then labels.take n
  else extendLoop (n + 1) n labels

/-- C1: the run fails with the assertion error exactly when one of the two
divisibility conditions fails, and on the failure path no work phase
(network construction, data loading, simulation) is performed; when both
conditions hold no such error is raised.  `update_interval` is required
positive: Python `%` by zero raises a different error before the assert can
report.  Divisibility is phrased with `Nat.mod`, which agrees with Python
`%` on non-negative operands with a positive modulus. -/
theorem assert_guards_all_work (c : LCConfig) (hu : 0 < c.update_interval) :
    ((∃ msg, mainPrefix c = Except.error msg) ↔
      ¬ (c.n_train % c.update_interval = 0 ∧ c.n_test % c.update_interval = 0)) ∧
    (∀ msg, mainPrefix c = Except.error msg →
      ∀ phases, mainPrefix c ≠ Except.ok phases) ∧
    ((c.n_train % c.update_interval = 0 ∧ c.n_test % c.update_interval = 0) →
      mainPrefix c =
        Except.ok [WorkPhase.networkConstruction, WorkPhase.dataLoading,
          WorkPhase.simulation]) := by
  refine ⟨?_, ?_, ?_⟩
  · constructor
    · rintro ⟨msg, hmsg⟩ hdiv
      have hchk : divisibilityCheck c = true := by
        simp [divisibilityCheck, hdiv.1, hdiv.2]
      simp [mainPrefix, hchk] at hmsg
    · intro hdiv
      have hchk : divisibilityCheck c = false := by
        simp only [divisibilityCheck, Bool.and_eq_false_iff, beq_iff_eq]
        by_contra hcon
        push_neg at hcon
        rcases hcon with ⟨h1, h2⟩
        exact hdiv ⟨by simpa using h1, by simpa using h2⟩
      exact ⟨"No. examples must be divisible by update_interval", by
        simp [mainPrefix, hchk]⟩
  · intro msg hmsg phases hok
    rw [hmsg] at hok
    exact Except.noConfusion hok
  · intro hdiv
    have hchk : divisibilityCheck c = true := by
      simp [divisibilityCheck, hdiv.1, hdiv.2]
    simp [mainPrefix, hchk]

/-- Witness for C1 at the default configuration: 60000 and 10000 are both
divisible by 250, so the run reaches all work phases. -/
theorem assert_guards_all_work_witness :
    0 < defaultLCConfig.update_interval ∧
    (((∃ msg, mainPrefix defaultLCConfig = Except.error msg) ↔
      ¬ (defaultLCConfig.n_train % defaultLCConfig.update_interval = 0 ∧
         defaultLCConfig.n_test % defaultLCConfig.update_interval = 0)) ∧
    (∀ msg, mainPrefix defaultLCConfig = Except.error msg →
      ∀ phases, mainPrefix defaultLCConfig ≠ Except.ok phases) ∧
    ((defaultLCConfig.n_train % defaultLCConfig.update_interval = 0 ∧
      defaultLCConfig.n_test % defaultLCConfig.update_interval = 0) →
      mainPrefix defaultLCConfig =
        Except.ok [WorkPhase.networkConstruction, WorkPhase.dataLoading,
          WorkPhase.simulation])) :=
  ⟨by decide, assert_guards_all_work defaultLCConfig (by decide)⟩

/-- C8: the identity string is a pure function of the configuration — equal
configurations yield the same `model_name`, hence the same checkpoint and
auxiliary file names.  (In a pure embedding this is congruence; the content
is that `model_name` as defined on lines 47-52 reads nothing but the
configuration parameters — no clock, randomness, or environment.) -/
theorem model_name_deterministic (c₁ c₂ : LCConfig) (h : c₁ = c₂) :
    model_name c₁ = model_name c₂ ∧
    checkpointFile c₁ = checkpointFile c₂ ∧
    auxiliaryFile c₁ = auxiliaryFile c₂ := by
  subst h
  exact ⟨rfl, rfl, rfl⟩

/-- Witness for C8 at the default configuration. -/
theorem model_name_deterministic_witness :
    model_name defaultLCConfig = model_name defaultLCConfig ∧
    checkpointFile defaultLCConfig = checkpointFile defaultLCConfig ∧
    auxiliaryFile defaultLCConfig = auxiliaryFile defaultLCConfig :=
  model_name_deterministic defaultLCConfig defaultLCConfig rfl

theorem mem_le_pyMax {x : Rat} : ∀ {l : List Rat}, x ∈ l → x ≤ pyMax l
  | [], h => absurd h (List.not_mem_nil x)
  | [y], h => by
      rcases List.mem_singleton.mp h with rfl
      exact le_refl x
  | y :: z :: xs, h => by
      rcases List.mem_cons.mp h with rfl | h
      · exact le_max_left _ _
      · exact le_trans (mem_le_pyMax h) (le_max_right _ _)

theorem checkpointStep_le (best : Rat) (lasts : List Rat) :
    best ≤ (checkpointStep best lasts).2 := by
  unfold checkpointStep
  by_cases hc : lasts.any (fun x => decide (best < x)) = true
  · rcases List.any_eq_true.mp hc with ⟨x, hx, hbx⟩
    simp only [hc, if_true]
    exact le_trans (le_of_lt (of_decide_eq_true hbx)) (mem_le_pyMax hx)
  · simp [hc]

/-- C2: within one run, a checkpoint is persisted exactly when some
latest accuracy of some strategy strictly exceeds the current watermark; the
watermark is then set to the maximum of the latest accuracies (and is left
unchanged otherwise), so it never decreases — in particular it never
decreases across any sequence of successive interval evaluations. -/
theorem checkpoint_watermark_monotonic (best : Rat) (lasts : List Rat)
    (evals : List (List Rat)) :
    ((checkpointStep best lasts).1 = true ↔ ∃ x ∈ lasts, best < x) ∧
    (checkpointStep best lasts).2 =
      (if (checkpointStep best lasts).1 then pyMax lasts else best) ∧
    best ≤ (checkpointStep best lasts).2 ∧
    best ≤ watermarkAfter best evals := by
  refine ⟨?_, ?_, checkpointStep_le best lasts, ?_⟩
  · unfold checkpointStep
    by_cases hc : lasts.any (fun x => decide (best < x)) = true
    · simp only [hc, if_true]
      constructor
      · intro _
        rcases List.any_eq_true.mp hc with ⟨x, hx, hbx⟩
        exact ⟨x, hx, of_decide_eq_true hbx⟩
      · intro _; trivial
    · simp only [hc, if_false]
      constructor
      · intro hfalse; exact absurd hfalse (by simp)
      · rintro ⟨x, hx, hbx⟩
        exact absurd (List.any_eq_true.mpr ⟨x, hx, decide_eq_true hbx⟩) hc
  · unfold checkpointStep
    by_cases hc : lasts.any (fun x => decide (best < x)) = true
    · simp [hc]
    · simp [hc]
  · induction evals generalizing best with
    | nil => exact le_refl best
    | cons l ls ih =>
        exact le_trans (checkpointStep_le best l) (ih _)

/-- C4: on an input whose runs always produce 0 output spikes, the loop
performs exactly 3 retries at scales 2, 4 and 8 (the image is doubled
before each retry), then stops with no further retry and no error. -/
theorem retry_three_doublings (spikesOf : Nat → Nat) (h : ∀ s, spikesOf s = 0) :
    retryLoop spikesOf 1 0 = ([2, 4, 8], 3) := by
  have h3 : retryLoop spikesOf 8 3 = ([], 3) := by
    unfold retryLoop; simp
  have h2 : retryLoop spikesOf 4 2 = ([8], 3) := by
    unfold retryLoop; simp [h, h3]
  have h1 : retryLoop spikesOf 2 1 = ([4, 8], 3) := by
    unfold retryLoop; simp [h, h2]
  unfold retryLoop; simp [h, h1]

/-- Witness for C4: the all-zero spike oracle (an all-zero-intensity input
never drives the output layer). -/
theorem retry_three_doublings_witness :
    retryLoop (fun _ => 0) 1 0 = ([2, 4, 8], 3) :=
  retry_three_doublings (fun _ => 0) (fun _ => rfl)

theorem sliceBound_neg_nat (len u : Nat) (hu : 0 < u) :
    sliceBound len (-(u : Int)) = len - u := by
  unfold sliceBound
  rw [if_pos (by omega)]
  omega

theorem sliceBound_nat (len e : Nat) :
    sliceBound len (e : Int) = min e len := by
  unfold sliceBound
  rw [if_neg (by omega)]
  omega

/-- C3: for a label sequence strictly shorter than `n_examples`, at an
interval-evaluation boundary `i` (`i % update_interval == 0`, `i > 0`)
with `i % len(labels) == 0`, the selected labels are the final
`update_interval` entries of the array (the tail `drop (len - u)`), a
non-empty in-bounds slice of length `min update_interval len`; at a
boundary with `i % len(labels) != 0` the slice
`labels[i % len - update_interval : i % len]` is selected. -/
theorem interval_label_wraparound {α : Type} (labels : List α) (u i n : Nat)
    (hu : 0 < u) (hne : labels ≠ []) (hshort : labels.length < n)
    (hbound : i % u = 0) (hpos : 0 < i) :
    (i % labels.length = 0 →
      currentLabels labels u i = labels.drop (labels.length - u) ∧
      currentLabels labels u i ≠ [] ∧
      (currentLabels labels u i).length = min u labels.length) ∧
    (i % labels.length ≠ 0 →
      currentLabels labels u i =
        pySlice labels ((i % labels.length : Int) - u) (i % labels.length)) := by
  have hlen : 0 < labels.length := List.length_pos.mpr hne
  constructor
  · intro hwrap
    have hsel : currentLabels labels u i =
        pySlice labels (-(u : Int)) labels.length := by
      unfold currentLabels
      rw [if_pos hwrap]
    have hs : sliceBound labels.length (-(u : Int)) = labels.length - u :=
      sliceBound_neg_nat labels.length u hu
    have he : sliceBound labels.length (labels.length : Int) = labels.length := by
      rw [sliceBound_nat]
      omega
    have hdroplen : (labels.drop (labels.length - u)).length =
        labels.length - (labels.length - u) := List.length_drop _ _
    have heq : currentLabels labels u i = labels.drop (labels.length - u) := by
      rw [hsel]
      show (labels.drop (sliceBound labels.length (-(u : Int)))).take
          (sliceBound labels.length (labels.length : Int) -
            sliceBound labels.length (-(u : Int))) =
        labels.drop (labels.length - u)
      rw [hs, he, ← hdroplen, List.take_length]
    refine ⟨heq, ?_, ?_⟩
    · rw [heq]
      intro hnil
      have := List.drop_eq_nil_iff.mp hnil
      omega
    · rw [heq, hdroplen]
      omega
  · intro hwrap
    unfold currentLabels
    rw [if_neg hwrap]

/-- Witness for C3: labels `[5, 7]` (length 2, shorter than
`n_examples = 3`), `update_interval = 2`, boundary index `i = 4`. -/
theorem interval_label_wraparound_witness :
    (0 < 2 ∧ ([5, 7] : List Nat) ≠ [] ∧ ([5, 7] : List Nat).length < 3 ∧
     4 % 2 = 0 ∧ 0 < 4) ∧
    ((4 % ([5, 7] : List Nat).length = 0 →
      currentLabels ([5, 7] : List Nat) 2 4 =
        ([5, 7] : List Nat).drop (([5, 7] : List Nat).length - 2) ∧
      currentLabels ([5, 7] : List Nat) 2 4 ≠ [] ∧
      (currentLabels ([5, 7] : List Nat) 2 4).length =
        min 2 ([5, 7] : List Nat).length) ∧
    (4 % ([5, 7] : List Nat).length ≠ 0 →
      currentLabels ([5, 7] : List Nat) 2 4 =
        pySlice ([5, 7] : List Nat) ((4 % ([5, 7] : List Nat).length : Int) - 2)
          (4 % ([5, 7] : List Nat).length))) :=
  ⟨⟨by decide, by decide, by decide, by decide, by decide⟩,
   interval_label_wraparound ([5, 7] : List Nat) 2 4 3 (by decide) (by decide)
     (by decide) (by decide) (by decide)⟩

theorem bufferAfter_spec (u : Nat) (hu : 0 < u) (k : Nat) (n : Nat) :
    (∀ i, bufferAfter u n k = some i →
      i % u = k ∧ i < n ∧ n ≤ i + u ∧ ∀ j, j < n → j % u = k → j ≤ i) ∧
    (bufferAfter u n k = none ↔ ∀ j, j < n → j % u ≠ k) := by
  induction n with
  | zero =>
      refine ⟨?_, ?_, ?_⟩
      · intro i h
        exact Option.noConfusion h
      · intro _ j hj _
        omega
      · intro _
        rfl
  | succ n ih =>
      have hstep : bufferAfter u (n + 1) k =
          if k = n % u then some n else bufferAfter u n k := rfl
      by_cases hk2 : k = n % u
      · rw [hstep, if_pos hk2]
        refine ⟨?_, ?_, ?_⟩
        · intro i h
          have hi : i = n := by
            injection h with h
            omega
          subst hi
          exact ⟨hk2.symm, by omega, by omega, fun j hj _ => by omega⟩
        · intro h
          exact Option.noConfusion h
        · intro h
          exact absurd (hk2.symm) (h n (by omega))
      · rw [hstep, if_neg hk2]
        refine ⟨?_, ?_⟩
        · intro i h
          obtain ⟨h1, h2, h3, h4⟩ := ih.1 i h
          have hne : n ≠ i + u := by
            intro hcon
            apply hk2
            rw [← h1, hcon, Nat.add_mod_right]
          refine ⟨h1, by omega, by omega, ?_⟩
          intro j hj hjk
          rcases Nat.lt_succ_iff_lt_or_eq.mp hj with hlt | rfl
          · exact h4 j hlt hjk
          · exact absurd hjk.symm hk2
        · rw [ih.2]
          constructor
          · intro h j hj hjk
            rcases Nat.lt_succ_iff_lt_or_eq.mp hj with hlt | rfl
            · exact h j hlt hjk
            · exact hk2 hjk.symm
          · intro h j hj hjk
            exact h j (by omega) hjk

/-- C5: the circular buffer holds at most the `update_interval` most recent
examples — a filled slot `k` holds the most recently processed example
whose index is congruent to `k` modulo `update_interval` (that example is
among the last `update_interval` processed: `n ≤ i + update_interval`),
an empty slot means no processed example is congruent to `k`, and each
example `i` is written exactly once, into slot `i % update_interval`,
leaving every other slot unchanged. -/
theorem spike_record_circular (u n k : Nat) (hu : 0 < u) (hk : k < u) :
    (∀ i, bufferAfter u n k = some i →
      i % u = k ∧ i < n ∧ n ≤ i + u ∧ ∀ j, j < n → j % u = k → j ≤ i) ∧
    (bufferAfter u n k = none ↔ ∀ j, j < n → j % u ≠ k) ∧
    (∀ buf i, writeSlot u buf i (i % u) = some i) ∧
    (∀ buf i k', k' ≠ i % u → writeSlot u buf i k' = buf k') := by
  refine ⟨(bufferAfter_spec u hu k n).1, (bufferAfter_spec u hu k n).2, ?_, ?_⟩
  · intro buf i
    simp [writeSlot]
  · intro buf i k' h
    simp [writeSlot, h]

/-- Witness for C5 at `update_interval = 3`, `n = 5`, slot `k = 1`
(the slot holds example 4). -/
theorem spike_record_circular_witness :
    0 < 3 ∧ 1 < 3 ∧
    ((∀ i, bufferAfter 3 5 1 = some i →
      i % 3 = 1 ∧ i < 5 ∧ 5 ≤ i + 3 ∧ ∀ j, j < 5 → j % 3 = 1 → j ≤ i) ∧
    (bufferAfter 3 5 1 = none ↔ ∀ j, j < 5 → j % 3 ≠ 1) ∧
    (∀ buf i, writeSlot 3 buf i (i % 3) = some i) ∧
    (∀ buf i k', k' ≠ i % 3 → writeSlot 3 buf i k' = buf k')) :=
  ⟨by decide, by decide, spike_record_circular 3 5 1 (by decide) (by decide)⟩

theorem curveAfterLoop_length (u : Nat) (acc : Nat → Rat) (hu : 0 < u) :
    ∀ n, (curveAfterLoop u n acc).length = if n = 0 then 0 else (n - 1) / u := by
  intro n
  induction n with
  | zero => rfl
  | succ n ih =>
      have hstep : curveAfterLoop u (n + 1) acc =
          if n % u = 0 ∧ 0 < n then curveAfterLoop u n acc ++ [acc n]
          else curveAfterLoop u n acc := by
        unfold curveAfterLoop
        rw [List.range_succ, List.foldl_append]
        rfl
      rcases Nat.eq_zero_or_pos n with rfl | hn
      · rw [hstep, if_neg (by omega), if_neg (by omega)]
        simp [curveAfterLoop]
      · have hsucc : n / u = (n - 1) / u + if u ∣ n then 1 else 0 := by
          have := Nat.succ_div (n - 1) u
          have hn1 : n - 1 + 1 = n := by omega
          rw [hn1] at this
          exact this
        by_cases hdvd : n % u = 0
        · have hdvd2 : u ∣ n := Nat.dvd_of_mod_eq_zero hdvd
          rw [hstep, if_pos ⟨hdvd, hn⟩, List.length_append, ih]
          rw [if_neg (by omega), if_neg (by omega)]
          simp only [List.length_singleton]
          rw [Nat.add_sub_cancel, hsucc, if_pos hdvd2]
        · have hdvd2 : ¬ u ∣ n := by
            rintro ⟨m, rfl⟩
            exact hdvd (Nat.mul_mod_right u m)
          rw [hstep, if_neg (by tauto), ih]
          rw [if_neg (by omega), if_neg (by omega)]
          rw [Nat.add_sub_cancel, hsucc, if_neg hdvd2]
          omega

/-- C6: after a full run over `n_examples` examples the accuracy curve has
exactly `ceil(n_examples / update_interval)` entries, written here as
`(n + u - 1) / u` in natural division; the count splits as the in-loop
boundary entries plus exactly one final-flush entry, and satisfies the
ceiling characterization `(len - 1) * u < n ≤ len * u`. -/
theorem accuracy_curve_length (u n : Nat) (acc : Nat → Rat) (hu : 0 < u)
    (hn : 0 < n) :
    (curveFinal u n acc).length = (n + u - 1) / u ∧
    (curveFinal u n acc).length = (curveAfterLoop u n acc).length + 1 ∧
    ((curveFinal u n acc).length - 1) * u < n ∧
    n ≤ (curveFinal u n acc).length * u := by
  have hsplit : (curveFinal u n acc).length = (curveAfterLoop u n acc).length + 1 := by
    unfold curveFinal
    rw [List.length_append]
    rfl
  have hloop : (curveAfterLoop u n acc).length = (n - 1) / u := by
    rw [curveAfterLoop_length u acc hu n, if_neg (by omega)]
  have hceil : (n - 1) / u + 1 = (n + u - 1) / u := by
    have h1 : (n - 1 + u) / u = (n - 1) / u + 1 := Nat.add_div_right (n - 1) hu
    have h2 : n - 1 + u = n + u - 1 := by omega
    rw [← h2, h1]
  have h1 := Nat.div_add_mod (n - 1) u
  have h2 := Nat.mod_lt (n - 1) hu
  have h3 : (n - 1) / u * u = u * ((n - 1) / u) := Nat.mul_comm _ _
  have h4 : ((n - 1) / u + 1) * u = u * ((n - 1) / u) + u := by ring
  refine ⟨by rw [hsplit, hloop, hceil], hsplit, ?_, ?_⟩
  · rw [hsplit, hloop]
    simp only [Nat.add_sub_cancel]
    omega
  · rw [hsplit, hloop]
    omega

/-- Witness for C6 at `update_interval = 2`, `n_examples = 5`: the curve
has `ceil(5 / 2) = 3` entries. -/
theorem accuracy_curve_length_witness :
    0 < 2 ∧ 0 < 5 ∧
    ((curveFinal 2 5 (fun _ => 0)).length = (5 + 2 - 1) / 2 ∧
     (curveFinal 2 5 (fun _ => 0)).length =
       (curveAfterLoop 2 5 (fun _ => 0)).length + 1 ∧
     ((curveFinal 2 5 (fun _ => 0)).length - 1) * 2 < 5 ∧
     5 ≤ (curveFinal 2 5 (fun _ => 0)).length * 2) :=
  ⟨by decide, by decide, accuracy_curve_length 2 5 (fun _ => 0) (by decide) (by decide)⟩

theorem runExample_noOp_frame (delta : List Rat → List Rat) (spk : List Rat)
    (net : NetworkState) (hrule : net.update_rule = UpdateRule.noOp)
    (hp : net.theta_plus = 0) (hd : net.theta_decay = 0)
    (hlen : spk.length = net.theta.length) :
    runExample delta spk net = net := by
  refine NetworkState.ext ?_ ?_ rfl rfl rfl
  · show (match net.update_rule with
      | UpdateRule.noOp => net.w
      | UpdateRule.plastic => delta net.w) = net.w
    rw [hrule]
  · show (net.theta.zip spk).map
        (fun p => p.1 - net.theta_decay * p.1 + net.theta_plus * p.2) = net.theta
    rw [hp, hd]
    simp only [zero_mul, sub_zero, add_zero]
    exact List.map_fst_zip net.theta spk (by omega)

/-- C7: in test mode the provisioning step disables the learning rule on
the primary plastic connection (sets it to `NoOp`) and zeroes `theta_plus`
and `theta_decay`, and thereafter running any number of evaluation
examples leaves the learned connection weights (and adaptive thresholds)
unchanged. -/
theorem test_mode_preserves_weights (net : NetworkState)
    (deltas : Nat → List Rat → List Rat) (spks : Nat → List Rat) (m : Nat)
    (hlen : ∀ j, (spks j).length = net.theta.length) :
    (provisionTest net).update_rule = UpdateRule.noOp ∧
    (provisionTest net).theta_plus = 0 ∧
    (provisionTest net).theta_decay = 0 ∧
    (provisionTest net).w = net.w ∧
    (runExamples deltas spks m (provisionTest net)).w = net.w ∧
    (runExamples deltas spks m (provisionTest net)).theta = net.theta := by
  refine ⟨rfl, rfl, rfl, rfl, ?_⟩
  have hfix : ∀ k st, st.update_rule = UpdateRule.noOp → st.theta_plus = 0 →
      st.theta_decay = 0 → st.theta = net.theta →
      runExamples deltas spks k st = st := by
    intro k
    induction k with
    | zero => intro st _ _ _ _; rfl
    | succ k ih =>
        intro st hrule hp hd hth
        show runExamples deltas spks k (runExample (deltas k) (spks k) st) = st
        rw [runExample_noOp_frame (deltas k) (spks k) st hrule hp hd
          (by rw [hth]; exact hlen k)]
        exact ih st hrule hp hd hth
  rw [hfix m (provisionTest net) rfl rfl rfl rfl]
  exact ⟨rfl, rfl⟩

/-- Witness for C7: `demoNet` run for 2 examples under a rule that would
add 1 to every weight; the weights stay `[1/2]`. -/
theorem test_mode_preserves_weights_witness :
    (∀ j : Nat, ([1] : List Rat).length = demoNet.theta.length) ∧
    ((provisionTest demoNet).update_rule = UpdateRule.noOp ∧
     (provisionTest demoNet).theta_plus = 0 ∧
     (provisionTest demoNet).theta_decay = 0 ∧
     (provisionTest demoNet).w = demoNet.w ∧
     (runExamples (fun _ => List.map (fun x => x + 1)) (fun _ => [1]) 2
        (provisionTest demoNet)).w = demoNet.w ∧
     (runExamples (fun _ => List.map (fun x => x + 1)) (fun _ => [1]) 2
        (provisionTest demoNet)).theta = demoNet.theta) :=
  ⟨fun _ => rfl,
   test_mode_preserves_weights demoNet
     (fun _ => List.map (fun x => x + 1)) (fun _ => [1]) 2 (fun _ => rfl)⟩

/-- C9: the Diehl & Cook script always draws its images and labels from
the MNIST training split — the data source is the same in train and test
mode — while the test flag does change the number of examples
(`n_test` instead of `n_train`). -/
theorem dc_always_train_split (n_train n_test : Nat) :
    (∀ train, dcDataSplit train = MNISTSplit.trainSplit) ∧
    dcDataSplit true = dcDataSplit false ∧
    dcNExamples n_train n_test true = n_train ∧
    dcNExamples n_train n_test false = n_test :=
  ⟨fun _ => rfl, rfl, rfl, rfl⟩

theorem cyc_length (L : List Nat) (n : Nat) : (cyc L n).length = n := by
  simp [cyc]

theorem cyc_self (L : List Nat) : cyc L L.length = L := by
  apply List.ext_getElem (by simp [cyc])
  intro i h1 h2
  simp only [cyc, List.getElem_map, List.getElem_range]
  rw [Nat.mod_eq_of_lt h2]
  exact List.getD_eq_getElem L 0 h2

theorem cyc_append (L : List Nat) (k m r : Nat) (hm : m = k * L.length) :
    cyc L m ++ cyc L r = cyc L (m + r) := by
  unfold cyc
  rw [List.range_add m r, List.map_append, List.map_map]
  congr 1
  apply List.map_congr_left
  intro i _
  simp only [Function.comp_apply]
  subst hm
  rw [Nat.mul_comm k L.length, Nat.mul_add_mod]

theorem cyc_take (L : List Nat) (m r : Nat) (h : r ≤ m) :
    (cyc L m).take r = cyc L r := by
  unfold cyc
  rw [← List.map_take, List.take_range, min_eq_left h]

theorem extendLoop_cyc (L : List Nat) (hL : L ≠ []) :
    ∀ fuel n k, 0 < k → k * L.length ≤ n → n ≤ k * L.length + fuel →
      extendLoop fuel n (cyc L (k * L.length)) = cyc L n := by
  have hlpos : 0 < L.length := List.length_pos.mpr hL
  intro fuel
  induction fuel with
  | zero =>
      intro n k hk h1 h2
      have hn : n = k * L.length := by omega
      subst hn
      rfl
  | succ fuel ih =>
      intro n k hk h1 h2
      have hkl : 0 < k * L.length := Nat.mul_pos hk hlpos
      have hlen : (cyc L (k * L.length)).length = k * L.length := cyc_length L _
      have hstep : extendLoop (fuel + 1) n (cyc L (k * L.length)) =
          if (cyc L (k * L.length)).length < n then
            if n < 2 * (cyc L (k * L.length)).length then
              cyc L (k * L.length) ++
                (cyc L (k * L.length)).take (n - (cyc L (k * L.length)).length)
            else extendLoop fuel n (cyc L (k * L.length) ++ cyc L (k * L.length))
          else cyc L (k * L.length) := rfl
      rw [hstep, hlen]
      by_cases hlt : k * L.length < n
      · rw [if_pos hlt]
        by_cases htop : n < 2 * (k * L.length)
        · rw [if_pos htop, cyc_take L (k * L.length) (n - k * L.length) (by omega),
            cyc_append L k (k * L.length) (n - k * L.length) rfl]
          congr 1
          omega
        · rw [if_neg htop,
            cyc_append L k (k * L.length) (k * L.length) rfl]
          have h2k : k * L.length + k * L.length = 2 * k * L.length := by ring
          have h2k2 : 2 * (k * L.length) = 2 * k * L.length := by ring
          rw [h2k]
          exact ih n (2 * k) (by omega) (by omega) (by omega)
      · rw [if_neg hlt]
        have hn : n = k * L.length := by omega
        subst hn
        rfl

/-- C10: for a non-empty label vector, the adjustment before the confusion
matrices yields exactly `n_examples` labels: the cyclic extension
`cyc labels n_examples` in general, which is the plain truncation
`labels[:n_examples]` whenever the vector is at least that long — so the
confusion matrix pairs exactly `n_examples` predictions with `n_examples`
labels, with no out-of-bounds access.  (On an empty label vector the
source loop would not terminate, but the MNIST label vector is never
empty.) -/
theorem confusion_labels_exact (L : List Nat) (n : Nat) (hL : L ≠ []) :
    adjustLabels n L = cyc L n ∧
    (adjustLabels n L).length = n ∧
    (n ≤ L.length → adjustLabels n L = L.take n) := by
  have hlpos : 0 < L.length := List.length_pos.mpr hL
  have htake : ∀ m, m ≤ L.length → L.take m = cyc L m := by
    intro m hm
    conv_lhs => rw [← cyc_self L]
    exact cyc_take L L.length m hm
  have hmain : adjustLabels n L = cyc L n := by
    unfold adjustLabels
    by_cases h : n < L.length
    · rw [if_pos h]
      exact htake n (le_of_lt h)
    · rw [if_neg h]
      have hel := extendLoop_cyc L hL (n + 1) n 1 (by omega) (by omega) (by omega)
      rw [one_mul, cyc_self] at hel
      exact hel
  refine ⟨hmain, by rw [hmain, cyc_length], ?_⟩
  intro hle
  rw [hmain, htake n hle]

/-- Witness for C10: labels `[3, 1]` extended to `n_examples = 5` give
`[3, 1, 3, 1, 3]`. -/
theorem confusion_labels_exact_witness :
    ([3, 1] : List Nat) ≠ [] ∧
    (adjustLabels 5 ([3, 1] : List Nat) = cyc ([3, 1] : List Nat) 5 ∧
     (adjustLabels 5 ([3, 1] : List Nat)).length = 5 ∧
     (5 ≤ ([3, 1] : List Nat).length →
       adjustLabels 5 ([3, 1] : List Nat) = ([3, 1] : List Nat).take 5)) :=
  ⟨by decide, confusion_labels_exact ([3, 1] : List Nat) 5 (by decide)⟩

end BindsnetExperiments
